import Mathlib

/-!
Verification of the template rendering engine and publish pipeline of the
whitecottagefloral repository, embedded shallowly from `src/build.js` and
`src/editor/server.js`.  Strings are modelled as `List Char`; JSON values
(the parse of `data.json`) as the inductive `JsVal`.  JavaScript semantics
that matter to the embedded functions (falsy values, `String(...)` coercion,
`String.prototype.replace` `$`-substitution, regex scanning with
backtracking) are modelled explicitly.  Host-object behaviour that cannot
arise from JSON data (prototype-inherited methods, expando properties on
arrays) is modelled as `undefined` / dropped, as noted at each definition.
-/

namespace WCF

abbrev Str := List Char

/-- JS line terminators, excluded by `.` in a regex without the `s` flag
(LF, CR, LS U+2028, PS U+2029). -/
def isLineTerm (c : Char) : Bool :=
  c = '\n' || c = '\r' || c = Char.ofNat 0x2028 || c = Char.ofNat 0x2029

/-- JS `\s` / `String.prototype.trim` whitespace (the characters that can
occur in practice; the full Unicode set also has exotic spaces). -/
def isJsWs (c : Char) : Bool :=
  c = ' ' || c = '\t' || c = '\n' || c = '\r' ||
  c = '\x0b' || c = '\x0c' || c = Char.ofNat 0xa0 || c = Char.ofNat 0xfeff ||
  c = Char.ofNat 0x2028 || c = Char.ofNat 0x2029

/-- `String.prototype.trim`. -/
def jsTrim (s : Str) : Str :=
  ((s.dropWhile isJsWs).reverse.dropWhile isJsWs).reverse

/-- `String.prototype.split` with a single-character separator.
`"".split(sep)` is `[""]`, and empty chunks are kept. -/
def jsSplit (sep : Char) : Str → List Str
  | [] => [[]]
  | c :: cs =>
    if c = sep then [] :: jsSplit sep cs
    else
      match jsSplit sep cs with
      | [] => [[c]]
      | h :: t => (c :: h) :: t

mutual
/-- A JSON-shaped JavaScript value, as produced by `JSON.parse` on
`data.json`, together with `undefined` (the result of a missing property
read). -/
inductive JsVal : Type where
  | undefined : JsVal
  | null : JsVal
  | bool (b : Bool) : JsVal
  | num (n : Int) : JsVal
  | str (s : List Char) : JsVal
  | arr (xs : JsArr) : JsVal
  | obj (fs : JsObj) : JsVal

/-- An ordered JSON array. -/
inductive JsArr : Type where
  | nil : JsArr
  | cons (hd : JsVal) (tl : JsArr) : JsArr

/-- An ordered JSON object (insertion-ordered fields, keys unique). -/
inductive JsObj : Type where
  | nil : JsObj
  | cons (key : List Char) (val : JsVal) (tl : JsObj) : JsObj
end

def JsArr.ofList : List JsVal → JsArr
  | [] => .nil
  | v :: vs => .cons v (JsArr.ofList vs)

def JsObj.ofList : List (List Char × JsVal) → JsObj
  | [] => .nil
  | (k, v) :: fs => .cons k v (JsObj.ofList fs)

def JsArr.length : JsArr → Nat
  | .nil => 0
  | .cons _ tl => tl.length + 1

def JsArr.get? : JsArr → Nat → Option JsVal
  | .nil, _ => none
  | .cons hd _, 0 => some hd
  | .cons _ tl, n + 1 => tl.get? n

def JsObj.find? : JsObj → Str → Option JsVal
  | .nil, _ => none
  | .cons k v tl, key => if k = key then some v else tl.find? key

/-- JS truthiness of a JSON-shaped value (`NaN` and `-0` cannot arise from
our integer model). -/
def truthy : JsVal → Bool
  | .undefined => false
  | .null => false
  | .bool b => b
  | .num n => n ≠ 0
  | .str s => s ≠ []
  | .arr _ => true
  | .obj _ => true

def JsVal.isArr : JsVal → Bool
  | .arr _ => true
  | _ => false

/-- A canonical JS array index: nonempty, all digits, no leading zero
(except `"0"` itself). -/
def canonIndex? (s : Str) : Option Nat :=
  match s with
  | [] => none
  | c :: cs =>
    if (c :: cs).all Char.isDigit then
      if c = '0' && cs ≠ [] then none
      else some ((c :: cs).foldl (fun n d => n * 10 + (d.toNat - 48)) 0)
    else none

/-- One property read, `v[prop]`, on a JSON-shaped value. Own properties of
objects, index/`length` reads on arrays and strings; prototype-inherited
methods are not representable in the JSON value space and read as
`undefined`. -/
def propAccess (v : JsVal) (p : Str) : JsVal :=
  match v with
  | .obj fs => (fs.find? p).getD .undefined
  | .arr xs =>
    if p = "length".data then .num xs.length
    else
      match canonIndex? p with
      | some i => (xs.get? i).getD .undefined
      | none => .undefined
  | .str s =>
    if p = "length".data then .num s.length
    else
      match canonIndex? p with
      | some i =>
        match s.get? i with
        | some c => .str [c]
        | none => .undefined
      | none => .undefined
  | _ => .undefined

/-- `getValue` from `src/build.js` / `src/editor/server.js`:
`path.split('.').reduce((current, prop) => current && current[prop], obj)`.
JS `&&` yields the left operand when it is falsy, so a falsy intermediate
value is propagated unchanged to the result. -/
def getValue (root : JsVal) (path : Str) : JsVal :=
  (jsSplit '.' path).foldl
    (fun cur p => if truthy cur then propAccess cur p else cur) root

mutual
/-- JS `String(v)` for a JSON-shaped value (`Array.prototype.toString` is
`join(',')` with `null`/`undefined` elements printed as empty). -/
def jsToString : JsVal → List Char
  | .undefined => "undefined".data
  | .null => "null".data
  | .bool b => if b then "true".data else "false".data
  | .num n => (toString n).data
  | .str s => s
  | .arr xs => jsArrToString xs
  | .obj _ => "[object Object]".data

def jsArrToString : JsArr → List Char
  | .nil => []
  | .cons v .nil =>
    match v with
    | .undefined => []
    | .null => []
    | w => jsToString w
  | .cons v tl =>
    (match v with
     | .undefined => []
     | .null => []
     | w => jsToString w) ++ ',' :: jsArrToString tl
end

/-! ## `String.prototype.replace` with a string pattern -/

/-- Does `cs` start with `pat`? -/
def startsWith : Str → Str → Bool
  | [], _ => true
  | _ :: _, [] => false
  | p :: ps, c :: cs => p = c && startsWith ps cs

/-- Index of the first occurrence of `pat` in `cs` (JS `indexOf`). -/
def indexOfSeq (pat : Str) : Str → Option Nat
  | [] => if startsWith pat [] then some 0 else none
  | c :: rest =>
    if startsWith pat (c :: rest) then some 0
    else (indexOfSeq pat rest).map (· + 1)

/-- Substring containment. -/
def containsSeq (cs pat : Str) : Bool := (indexOfSeq pat cs).isSome

/-- ECMAScript `GetSubstitution` for a string-valued pattern: in the
replacement, `$$` is `$`, `$&` the matched text, `` $` `` the text before
the match, `$'` the text after it; any other `$` sequence is literal
(there are no capture groups for a string pattern). -/
def getSubstitution (matched before after : Str) : Str → Str
  | [] => []
  | '$' :: c :: rest =>
    if c = '$' then '$' :: getSubstitution matched before after rest
    else if c = '&' then matched ++ getSubstitution matched before after rest
    else if c = Char.ofNat 96 then before ++ getSubstitution matched before after rest
    else if c = Char.ofNat 39 then after ++ getSubstitution matched before after rest
    else '$' :: c :: getSubstitution matched before after rest
  | c :: rest => c :: getSubstitution matched before after rest

/-- JS `s.replace(pat, repl)` with string `pat` and string `repl`:
replaces the first occurrence of `pat`, applying `$`-substitution to
`repl`. -/
def jsReplaceFirst (s pat repl : Str) : Str :=
  match indexOfSeq pat s with
  | none => s
  | some i =>
    let before := s.take i
    let after := s.drop (i + pat.length)
    before ++ getSubstitution pat before after repl ++ after

/-! ## Pass 1: scalar substitution
`template.replace(/\x7b\x7b([^#\/].*?)\x7d\x7d/g, (match, key) => ...)` from
`src/build.js` lines 28-31 / `server.js` lines 107-111. -/

/-- Lazy search for the closing braces: split `cs` into the shortest
non-line-terminator prefix followed by two closing braces, returning that
prefix and the rest. -/
def findClose : Str → Option (Str × Str)
  | [] => none
  | c :: rest =>
    if c = '}' && rest.head? = some '}' then some ([], rest.tail)
    else if isLineTerm c then none
    else (findClose rest).map (fun pr => (c :: pr.1, pr.2))

/-- One fuelled scan of the scalar-substitution regex replace.  On a match
`\x7b\x7b key \x7d\x7d` (first key character not `#` or `/`, rest of the key free of
line terminators, shortest closing), the callback substitutes
`getValue(data, key.trim())` unless it is `undefined`, in which case the
match text is kept verbatim.  The fuel only bounds recursion depth; each
step consumes at least one character, so `length + 1` fuel is never
exhausted. -/
def scalarStep (data : JsVal) : Nat → Str → Str
  | 0, cs => cs
  | fuel + 1, cs =>
    match cs with
    | '{' :: '{' :: c :: rest =>
      if c = '#' || c = '/' then '{' :: scalarStep data fuel ('{' :: c :: rest)
      else
        match findClose rest with
        | some (inner, rest') =>
          let key := c :: inner
          (match getValue data (jsTrim key) with
           | .undefined => '{' :: '{' :: (key ++ '}' :: '}' :: [])
           | v => jsToString v) ++ scalarStep data fuel rest'
        | none => '{' :: scalarStep data fuel ('{' :: c :: rest)
    | c :: rest => c :: scalarStep data fuel rest
    | [] => []

def scalarPass (data : JsVal) (cs : Str) : Str :=
  scalarStep data (cs.length + 1) cs

/-! ## Pass 2: `\x7b\x7b#each ...\x7d\x7d` iteration blocks
The `while ((match = eachRegex.exec(template)) !== null)` loop from
`src/build.js` lines 35-57 / `server.js` lines 114-136, with the regex
`/\x7b\x7b#each\s+([^}]+)\x7d\x7d([\s\S]*?)\x7b\x7b\/each\x7d\x7d/g`.  The loop keeps the regex's
`lastIndex` across iterations while reassigning the subject string, and
replaces the first occurrence of the matched text. -/

/-- Lazy search for the literal closing tag of an each-block: shortest
prefix (any characters) followed by the nine characters of the closing
tag. -/
def findEachClose (cs : Str) : Option (Str × Str) :=
  if startsWith "\x7b\x7b/each\x7d\x7d".data cs then
    some ([], cs.drop 9)
  else
    match cs with
    | [] => none
    | c :: rest => (findEachClose rest).map (fun pr => (c :: pr.1, pr.2))

/-- Try the each-block regex anchored at the start of `cs`; on success
return `(group1, body, matchLength)`.  `\s+([^}]+)` is a greedy whitespace
run followed by a greedy non-`}` run: both classes exclude `}`, so the
combined run is `takeWhile (· ≠ '}')`; the split needs at least one
whitespace character first and one further character for the group, and
when the run is all whitespace the group is its last character. -/
def tryEachMatch (cs : Str) : Option (Str × Str × Nat) :=
  if startsWith "\x7b\x7b#each".data cs then
    let cs1 := cs.drop 7
    let run := cs1.takeWhile (· ≠ '}')
    match run with
    | [] => none
    | [_] => none
    | r1 :: _ :: _ =>
      if isJsWs r1 then
        let w := run.takeWhile isJsWs
        let g :=
          if w.length = run.length then
            match run.reverse with
            | x :: _ => [x]
            | [] => []
          else run.drop w.length
        match cs1.drop run.length with
        | '}' :: '}' :: cs2 =>
          match findEachClose cs2 with
          | some (body, _) =>
            some (g, body, 7 + run.length + 2 + body.length + 9)
          | none => none
        | _ => none
      else none
  else none

/-- Leftmost each-block match: index, group, body, match length. -/
def eachSearch : Str → Option (Nat × Str × Str × Nat)
  | [] => none
  | c :: rest =>
    match tryEachMatch (c :: rest) with
    | some (g, b, l) => some (0, g, b, l)
    | none =>
      (eachSearch rest).map (fun r => (r.1 + 1, r.2.1, r.2.2.1, r.2.2.2))

/-- Fuelled replacement of `\x7b\x7bthis.prop\x7d\x7d` inside an each-block body:
`itemBlock.replace(/\x7b\x7bthis\.([^}]+)\x7d\x7d/g, (m, prop) => item[prop.trim()] || '')`.
A truthy property value is coerced with `String(...)`; a falsy one renders
as the empty string. -/
def thisPropStep (item : JsVal) : Nat → Str → Str
  | 0, cs => cs
  | fuel + 1, cs =>
    match cs with
    | '{' :: '{' :: 't' :: 'h' :: 'i' :: 's' :: '.' :: rest =>
      let run := rest.takeWhile (· ≠ '}')
      (match run with
       | [] => none
       | _ :: _ =>
         match rest.drop run.length with
         | '}' :: '}' :: rest' => some (run, rest')
         | _ => none).elim
        ('{' :: thisPropStep item fuel ('{' :: 't' :: 'h' :: 'i' :: 's' :: '.' :: rest))
        (fun pr =>
          (match propAccess item (jsTrim pr.1) with
           | v => if truthy v then jsToString v else []) ++
          thisPropStep item fuel pr.2)
    | c :: rest => c :: thisPropStep item fuel rest
    | [] => []

/-- Replacement of the literal `\x7b\x7bthis\x7d\x7d`:
`itemBlock.replace(/\x7b\x7bthis\x7d\x7d/g, () => typeof item === 'string' ? item : '')`. -/
def thisPass (item : JsVal) : Str → Str
  | '{' :: '{' :: 't' :: 'h' :: 'i' :: 's' :: '}' :: '}' :: rest =>
    (match item with
     | .str s => s
     | _ => []) ++ thisPass item rest
  | c :: rest => c :: thisPass item rest
  | [] => []

/-- Rendering of one array element against the block template. -/
def renderItem (body : Str) (item : JsVal) : Str :=
  thisPass item (thisPropStep item (body.length + 1) body)

/-- `array.map(item => ...).join('')`. -/
def renderArr (body : Str) : JsArr → Str
  | .nil => []
  | .cons v tl => renderItem body v ++ renderArr body tl

/-- The each-block `while` loop.  `lastIndex` persists across iterations
(as on a `/g` regex) while the subject string is reassigned; a non-array
value at the path leaves the block text in place and only advances
`lastIndex`.  The JS loop can diverge on adversarial data (an each-block
whose rendering re-creates each-blocks past `lastIndex`), so the model
spends one unit of fuel per iteration; with enough fuel it agrees with
every terminating run. -/
def eachLoop (data : JsVal) : Nat → Nat → Str → Str
  | 0, _, html => html
  | fuel + 1, lastIndex, html =>
    match eachSearch (html.drop lastIndex) with
    | none => html
    | some (i, g, body, len) =>
      let idx := lastIndex + i
      let matchStr := (html.drop idx).take len
      (match getValue data (jsTrim g) with
       | .arr xs =>
         eachLoop data fuel (idx + len) (jsReplaceFirst html matchStr (renderArr body xs))
       | _ => eachLoop data fuel (idx + len) html)

/-! ## Pass 3: section overrides
`sectionMap.forEach(...)` from `src/build.js` lines 61-99 / `server.js`
lines 140-178.  For each entry the code builds
`<section[^>]*` (+ `id="..."[^>]*` when an id is configured)
(+ `class="[^"]*CLS[^"]*"[^>]*` when a class is configured) + `>([\s\S]*?)</section>`
as a case-insensitive, non-global regex, and if `getValue(data, path + ".customHtml")`
is truthy and the regex matches, replaces the matched region by
`match.replace(innerContent, customHtml)`. -/

/-- ASCII lowering, the case-folding relevant to the `i` flag on these
ASCII-only patterns. -/
def asciiLower (c : Char) : Char :=
  if 'A' ≤ c && c ≤ 'Z' then Char.ofNat (c.toNat + 32) else c

/-- Case-insensitive character equality. -/
def charEqI (a b : Char) : Bool := asciiLower a = asciiLower b

/-- Case-insensitive literal: consume `pat` from the front of `cs`. -/
def litI : Str → Str → Option Str
  | [], cs => some cs
  | _ :: _, [] => none
  | p :: ps, c :: cs => if charEqI p c then litI ps cs else none

/-- Greedy `X*` with backtracking: consume as many `p`-characters as
possible, then retry the continuation `k` on ever shorter runs (the
preference order of a greedy star). -/
def greedyStar (p : Char → Bool) (k : Str → Option α) : Str → Option α
  | [] => k []
  | c :: cs =>
    if p c then
      match greedyStar p k cs with
      | some r => some r
      | none => k (c :: cs)
    else k (c :: cs)

/-- Lazy `([\s\S]*?)</section>`: the shortest prefix before a
case-insensitive occurrence of the closing tag, paired with the rest
after that tag. -/
def findInner : Str → Option (Str × Str)
  | [] => none
  | c :: rest =>
    match litI "</section>".data (c :: rest) with
    | some rest' => some ([], rest')
    | none => (findInner rest).map (fun pr => (c :: pr.1, pr.2))

/-- One entry of the `sectionMap` table. -/
structure SecEntry where
  id : Option Str
  cls : Option Str
  path : Str

/-- Anchored attempt of the section regex at the start of `cs`, with the
exact backtracking preference of the JS pattern; returns the inner group
and the rest after the match. -/
def trySectionAt (e : SecEntry) (cs0 : Str) : Option (Str × Str) :=
  let kGt : Str → Option (Str × Str) := fun cs =>
    match cs with
    | '>' :: cs' => findInner cs'
    | _ => none
  let kCls : Str → Option (Str × Str) := fun cs =>
    match e.cls with
    | none => kGt cs
    | some cl =>
      (litI "class=\"".data cs).bind fun cs1 =>
      greedyStar (fun ch => ch ≠ '"')
        (fun cs2 =>
          (litI cl cs2).bind fun cs3 =>
          greedyStar (fun ch => ch ≠ '"')
            (fun cs4 =>
              (litI "\"".data cs4).bind fun cs5 =>
              greedyStar (fun ch => ch ≠ '>') kGt cs5)
            cs3)
        cs1
  let kId : Str → Option (Str × Str) := fun cs =>
    match e.id with
    | none => kCls cs
    | some i =>
      (litI ("id=\"".data ++ i ++ "\"".data) cs).bind fun cs1 =>
      greedyStar (fun ch => ch ≠ '>') kCls cs1
  (litI "<section".data cs0).bind fun cs1 =>
  greedyStar (fun ch => ch ≠ '>') kId cs1

/-- Leftmost match of the section regex: index, inner group, and match
length. -/
def sectionSearch (e : SecEntry) : Str → Option (Nat × Str × Nat)
  | [] => none
  | c :: rest =>
    match trySectionAt e (c :: rest) with
    | some (inner, after) =>
      some (0, inner, (c :: rest).length - after.length)
    | none =>
      (sectionSearch e rest).map (fun r => (r.1 + 1, r.2.1, r.2.2))

/-- The `sectionMap` table, in source order. -/
def sectionMapL : List SecEntry :=
  [ ⟨some "home".data, some "hero".data, "hero".data⟩,
    ⟨none, some "experience-section".data, "experience".data⟩,
    ⟨none, some "testimonial-section".data, "testimonial".data⟩,
    ⟨some "about".data, some "about-section".data, "about".data⟩,
    ⟨some "services".data, some "services-section".data, "services".data⟩,
    ⟨some "portfolio".data, some "portfolio-section".data, "portfolio".data⟩,
    ⟨none, some "standards-section".data, "standards".data⟩,
    ⟨none, some "location-section".data, "location".data⟩,
    ⟨some "contact".data, some "contact-section".data, "contact".data⟩ ]

/-- Apply one section override: when `path + ".customHtml"` is truthy and
the regex matches, the matched region is replaced by
`match.replace(innerContent, String(customHtml))` (a string-pattern replace,
so `$`-substitution applies to the custom HTML). -/
def applySection (data : JsVal) (html : Str) (e : SecEntry) : Str :=
  let custom := getValue data (e.path ++ ".customHtml".data)
  if truthy custom then
    match sectionSearch e html with
    | none => html
    | some (i, inner, len) =>
      let matchStr := (html.drop i).take len
      html.take i ++ jsReplaceFirst matchStr inner (jsToString custom) ++
        html.drop (i + len)
  else html

/-- The full section-override pass over the nine entries, in order. -/
def sectionPass (data : JsVal) (html : Str) : Str :=
  sectionMapL.foldl (applySection data) html

/-! ## The compiled pipeline -/

/-- `buildHTML(template, data)` (`server.js` 104-181; `build.js` runs the
same three passes on its globals): scalar substitution, then the
each-block loop, then section overrides.  The each loop gets
`length + 1` fuel, ample for every run that does not self-replicate
each-blocks (on which the JS itself diverges). -/
def buildHTML (template : Str) (data : JsVal) : Str :=
  let s1 := scalarPass data template
  let s2 := eachLoop data (s1.length + 1) 0 s1
  sectionPass data s2

/-! ## `setValue` (`server.js` lines 93-101)
```
function setValue(obj, path, value) \x7b
  const keys = path.split('.');
  const lastKey = keys.pop();
  const target = keys.reduce((current, key) => \x7b
    if (!current[key]) current[key] = \x7b\x7d;
    return current[key];
  \x7d, obj);
  target[lastKey] = value;
\x7d
```
`server.js` is an ES module, so this code runs in strict mode: a property
write on a primitive throws a `TypeError`, and a property read on
`undefined`/`null` throws a `TypeError`.  A falsy scalar at an intermediate
key fails the `if (!current[key])` test and is silently overwritten with a
fresh `\x7b\x7d`.  In-place mutation of the (tree-shaped, unaliased) JSON value is
modelled as functional reconstruction. -/

/-- Replace the value at an existing key, else append the key. -/
def JsObj.set : JsObj → Str → JsVal → JsObj
  | .nil, k, x => .cons k x .nil
  | .cons k0 v0 tl, k, x =>
    if k0 = k then .cons k0 x tl else .cons k0 v0 (tl.set k x)

/-- Set index `i`, extending with `undefined` holes as JS does for a write
past the end. -/
def JsArr.set : JsArr → Nat → JsVal → JsArr
  | .nil, 0, x => .cons x .nil
  | .nil, n + 1, x => .cons .undefined (JsArr.set .nil n x)
  | .cons _ tl, 0, x => .cons x tl
  | .cons hd tl, n + 1, x => .cons hd (tl.set n x)

/-- Strict-mode property read `v[k]` as used inside `setValue`: reading on
`undefined` or `null` throws a `TypeError`. -/
def jsRead (v : JsVal) (k : Str) : Except Str JsVal :=
  match v with
  | .undefined => .error "TypeError: cannot read properties of undefined".data
  | .null => .error "TypeError: cannot read properties of null".data
  | _ => .ok (propAccess v k)

/-- Strict-mode property write `v[k] = x`, returning the updated container.
Objects update/append the key; arrays update a canonical index (an expando
property on an array is not representable in the JSON value space and is
dropped); a write on any primitive throws a `TypeError` in strict mode. -/
def jsAssign (v : JsVal) (k : Str) (x : JsVal) : Except Str JsVal :=
  match v with
  | .obj fs => .ok (.obj (fs.set k x))
  | .arr xs =>
    (match canonIndex? k with
     | some i => .ok (.arr (xs.set i x))
     | none => .ok (.arr xs))
  | .undefined => .error "TypeError: cannot set properties of undefined".data
  | .null => .error "TypeError: cannot set properties of null".data
  | _ => .error "TypeError: cannot create property on primitive".data

/-- Write the recursively updated child back into its container.  This is
the functional image of mutation through a reference: objects and arrays
really hold the child; a primitive "container" was a copy in JS, so the
(necessarily unchanged) child result is discarded. -/
def writeBack (v : JsVal) (k : Str) (c : JsVal) : JsVal :=
  match v with
  | .obj fs => .obj (fs.set k c)
  | .arr xs =>
    (match canonIndex? k with
     | some i => .arr (xs.set i c)
     | none => .arr xs)
  | w => w

/-- The `keys.reduce` walk followed by the final `target[lastKey] = value`.
At each step: read `current[key]`; if falsy, write a fresh `\x7b\x7d` into
`current` and re-read. -/
def setWalk (v : JsVal) (ks : List Str) (lastKey : Str) (value : JsVal) :
    Except Str JsVal :=
  match ks with
  | [] => jsAssign v lastKey value
  | k :: rest =>
    (jsRead v k).bind fun c =>
    if truthy c then
      (setWalk c rest lastKey value).map (writeBack v k)
    else
      (jsAssign v k (.obj .nil)).bind fun v1 =>
      (jsRead v1 k).bind fun c1 =>
      (setWalk c1 rest lastKey value).map (writeBack v1 k)

/-- `setValue(obj, path, value)`: split the path, pop the last key, walk
creating/overwriting intermediates, then assign.  Returns the updated tree
or the thrown `TypeError`. -/
def setValue (root : JsVal) (path : Str) (value : JsVal) : Except Str JsVal :=
  match (jsSplit '.' path).reverse with
  | [] => .ok root
  | lastKey :: initRev => setWalk root initRev.reverse lastKey value

/-! ## The publish pipeline (`server.js` POST /api/publish, lines 1090-1162)
The route promotes `data-preview.json` to `data.json`, uploads `data.json`
(failure logged and swallowed: `// Continue anyway`), runs `build.js`,
reads `index.html`, uploads it (failure rethrown), and responds success;
any uncaught throw yields a 500 response.  I/O outcomes are supplied by an
environment oracle; file and blob contents are opaque strings. -/

/-- Outcomes of the I/O steps of one publish run. -/
structure PubEnv where
  /-- `readFileSync(data-preview.json)`. -/
  previewRead : Except Str Str
  /-- `writeFileSync(data.json)` succeeds. -/
  prodWriteOk : Bool
  /-- The `data.json` blob upload succeeds. -/
  dataUploadOk : Bool
  /-- `execAsync('node build.js')` outcome. -/
  buildRun : Except Str Unit
  /-- `readFileSync(index.html)` after the build. -/
  indexRead : Except Str Str
  /-- The `index.html` blob upload succeeds. -/
  htmlUploadOk : Bool

/-- Persistent state touched by publish. -/
structure PubState where
  /-- Contents of the production `data.json` file. -/
  production : Option Str
  /-- Contents of the `data.json` blob. -/
  blobData : Option Str
  /-- Contents of the `index.html` blob. -/
  blobHtml : Option Str

/-- Observable outcome of one publish run. -/
structure PubTrace where
  state : PubState
  /-- The `data.json` upload call was reached. -/
  dataUploadCalled : Bool
  /-- The `index.html` upload call was reached. -/
  htmlUploadCalled : Bool
  /-- The route responded `\x7b success: true \x7d` (otherwise an HTTP 500). -/
  ok : Bool

/-- The POST /api/publish handler. -/
def publish (env : PubEnv) (st : PubState) : PubTrace :=
  match env.previewRead with
  | .error _ => ⟨st, false, false, false⟩
  | .ok ds =>
    if env.prodWriteOk then
      let st1 : PubState := { st with production := some ds }
      let st2 : PubState :=
        if env.dataUploadOk then { st1 with blobData := some ds } else st1
      match env.buildRun with
      | .error _ => ⟨st2, true, false, false⟩
      | .ok _ =>
        match env.indexRead with
        | .error _ => ⟨st2, true, false, false⟩
        | .ok htmlC =>
          if env.htmlUploadOk then
            ⟨{ st2 with blobHtml := some htmlC }, true, true, true⟩
          else ⟨st2, true, true, false⟩
    else ⟨st, false, false, false⟩

/-! ## Helper predicates and lemmas -/

/-- A character that may appear in a simple placeholder key: no braces, no
`<` (even case-folded), no line terminator. -/
def plainKeyChar (c : Char) : Bool :=
  c ≠ '{' && c ≠ '}' && !(charEqI '<' c) && !(isLineTerm c)

/-- A well-formed simple placeholder key: nonempty, not starting with `#`
or `/`, all characters plain. -/
def plainKey : Str → Bool
  | [] => false
  | c :: rest => c ≠ '#' && c ≠ '/' && plainKeyChar c && rest.all plainKeyChar

theorem plainKeyChar_ne_lbrace {x : Char} (hx : plainKeyChar x = true) :
    x ≠ '{' := by
  intro h; subst h; exact absurd hx (by decide)

theorem plainKeyChar_ne_rbrace {x : Char} (hx : plainKeyChar x = true) :
    x ≠ '}' := by
  intro h; subst h; exact absurd hx (by decide)

theorem plainKeyChar_not_lt {x : Char} (hx : plainKeyChar x = true) :
    charEqI '<' x = false := by
  by_contra h
  simp only [Bool.not_eq_false] at h
  simp [plainKeyChar, h] at hx

theorem plainKeyChar_not_lineTerm {x : Char} (hx : plainKeyChar x = true) :
    isLineTerm x = false := by
  by_contra h
  simp only [Bool.not_eq_false] at h
  simp [plainKeyChar, h] at hx

theorem findClose_append (inner rest : Str)
    (h : ∀ x ∈ inner, plainKeyChar x = true) :
    findClose (inner ++ '}' :: '}' :: rest) = some (inner, rest) := by
  induction inner with
  | nil => simp [findClose]
  | cons x xs ih =>
    have hx := h x (by simp)
    have hxs : ∀ y ∈ xs, plainKeyChar y = true := fun y hy => h y (by simp [hy])
    simp [findClose, plainKeyChar_ne_rbrace hx, plainKeyChar_not_lineTerm hx,
      ih hxs]

theorem scalarStep_nil (data : JsVal) (fuel : Nat) :
    scalarStep data fuel [] = [] := by
  cases fuel <;> simp [scalarStep]

/-- The scalar pass on a template that is exactly one placeholder with a
plain key: the match covers the whole template and the callback decides the
output. -/
theorem scalarPass_single (data : JsVal) (c : Char) (K : Str)
    (hc1 : c ≠ '#') (hc2 : c ≠ '/')
    (hK : ∀ x ∈ K, plainKeyChar x = true) :
    scalarPass data ('{' :: '{' :: c :: (K ++ '}' :: '}' :: [])) =
      (match getValue data (jsTrim (c :: K)) with
       | .undefined => '{' :: '{' :: c :: (K ++ '}' :: '}' :: [])
       | v => jsToString v) := by
  have hfc := findClose_append K [] hK
  simp only [scalarPass, List.length_cons, List.length_append]
  simp only [scalarStep, hc1, hc2, hfc, if_neg, Bool.or_self]
  cases hg : getValue data (jsTrim (c :: K)) <;>
    simp [hg, scalarStep_nil]

/-- No each-block can match in a string without an opening brace. -/
theorem eachSearch_none (cs : Str) (h : ∀ x ∈ cs, x ≠ '{') :
    eachSearch cs = none := by
  induction cs with
  | nil => rfl
  | cons c rest ih =>
    have hc : c ≠ '{' := h c (by simp)
    have hrest : ∀ x ∈ rest, x ≠ '{' := fun x hx => h x (by simp [hx])
    have hm : tryEachMatch (c :: rest) = none := by
      simp [tryEachMatch, startsWith, (Ne.symm hc)]
    simp [eachSearch, hm, ih hrest]

/-- The each-block regex cannot match anywhere in a single plain-key
placeholder: the only opening braces are the two leading ones, and the
character after them is not `#`. -/
theorem eachSearch_single (c : Char) (K : Str)
    (hc : c ≠ '#') (hcK : plainKeyChar c = true)
    (hK : ∀ x ∈ K, plainKeyChar x = true) :
    eachSearch ('{' :: '{' :: c :: (K ++ '}' :: '}' :: [])) = none := by
  have htail : ∀ x ∈ (c :: (K ++ '}' :: '}' :: [])), x ≠ '{' := by
    intro x hx
    rcases List.mem_cons.mp hx with h | h
    · subst h; exact plainKeyChar_ne_lbrace hcK
    · rcases List.mem_append.mp h with h | h
      · exact plainKeyChar_ne_lbrace (hK x h)
      · rcases List.mem_cons.mp h with h | h
        · subst h; decide
        · rcases List.mem_cons.mp h with h | h
          · subst h; decide
          · simp at h
  have h0 : tryEachMatch ('{' :: '{' :: c :: (K ++ '}' :: '}' :: [])) = none := by
    simp [tryEachMatch, startsWith, (Ne.symm hc)]
  have h1 : tryEachMatch ('{' :: c :: (K ++ '}' :: '}' :: [])) = none := by
    have : c ≠ '{' := plainKeyChar_ne_lbrace hcK
    simp [tryEachMatch, startsWith, (Ne.symm this)]
  have h2 : tryEachMatch (c :: (K ++ '}' :: '}' :: [])) = none := by
    have : c ≠ '{' := plainKeyChar_ne_lbrace hcK
    simp [tryEachMatch, startsWith, (Ne.symm this)]
  have h3 : eachSearch (K ++ '}' :: '}' :: []) = none := by
    refine eachSearch_none _ (fun x hx => ?_)
    rcases List.mem_append.mp hx with h | h
    · exact plainKeyChar_ne_lbrace (hK x h)
    · rcases List.mem_cons.mp h with h | h
      · subst h; decide
      · rcases List.mem_cons.mp h with h | h
        · subst h; decide
        · simp at h
  simp [eachSearch, h0, h1, h2, h3]

/-- With positive fuel, the each loop is the identity when no block
matches. -/
theorem eachLoop_no_match (data : JsVal) (fuel : Nat) (html : Str)
    (h : eachSearch html = none) :
    eachLoop data (fuel + 1) 0 html = html := by
  simp [eachLoop, h]

/-- The section regex cannot match in a string without a (case-folded)
`<`. -/
theorem sectionSearch_none (e : SecEntry) (cs : Str)
    (h : ∀ x ∈ cs, charEqI '<' x = false) :
    sectionSearch e cs = none := by
  induction cs with
  | nil => rfl
  | cons c rest ih =>
    have hc : charEqI '<' c = false := h c (by simp)
    have hrest : ∀ x ∈ rest, charEqI '<' x = false := fun x hx => h x (by simp [hx])
    have hm : trySectionAt e (c :: rest) = none := by
      simp [trySectionAt, litI, hc]
    simp [sectionSearch, hm, ih hrest]

/-- One section override is a no-op when the regex does not match. -/
theorem applySection_no_match (data : JsVal) (html : Str) (e : SecEntry)
    (h : sectionSearch e html = none) :
    applySection data html e = html := by
  simp [applySection, h]

/-- The whole section pass is the identity on a string without `<`. -/
theorem sectionPass_id (data : JsVal) (html : Str)
    (h : ∀ x ∈ html, charEqI '<' x = false) :
    sectionPass data html = html := by
  have : ∀ es : List SecEntry, es.foldl (applySection data) html = html := by
    intro es
    induction es with
    | nil => rfl
    | cons e es ih =>
      rw [List.foldl_cons,
        applySection_no_match data html e (sectionSearch_none e html h), ih]
  exact this sectionMapL

/-! ## Array-free data -/

mutual
/-- No array occurs anywhere in the value. -/
def JsVal.arrFree : JsVal → Bool
  | .arr _ => false
  | .obj fs => fs.arrFree
  | _ => true

def JsObj.arrFree : JsObj → Bool
  | .nil => true
  | .cons _ v tl => v.arrFree && tl.arrFree
end

theorem JsObj.find?_arrFree : ∀ {fs : JsObj} {p : Str} {w : JsVal},
    fs.arrFree = true → fs.find? p = some w → w.arrFree = true
  | .nil, p, w => by
    intro _ hf
    simp [JsObj.find?] at hf
  | .cons k v tl, p, w => by
    intro hfs hf
    simp only [JsObj.arrFree, Bool.and_eq_true] at hfs
    simp only [JsObj.find?] at hf
    split at hf
    · cases hf; exact hfs.1
    · exact JsObj.find?_arrFree hfs.2 hf

theorem propAccess_arrFree {v : JsVal} (p : Str)
    (hv : v.arrFree = true) : (propAccess v p).arrFree = true := by
  cases v with
  | arr xs => simp [JsVal.arrFree] at hv
  | obj fs =>
    simp only [propAccess]
    cases hf : fs.find? p with
    | none => rfl
    | some w =>
      simpa using JsObj.find?_arrFree (by simpa [JsVal.arrFree] using hv) hf
  | str s =>
    simp only [propAccess]
    split
    · rfl
    · split
      · split <;> rfl
      · rfl
  | undefined => rfl
  | null => rfl
  | bool b => rfl
  | num n => rfl

theorem getValue_arrFree (root : JsVal) (g : Str)
    (h : root.arrFree = true) : (getValue root g).arrFree = true := by
  unfold getValue
  generalize jsSplit '.' g = segs
  induction segs generalizing root with
  | nil => exact h
  | cons p ps ih =>
    rw [List.foldl_cons]
    by_cases ht : truthy root = true
    · exact ih _ (by simpa [ht] using propAccess_arrFree p h)
    · simp only [Bool.not_eq_true] at ht
      exact ih _ (by simpa [ht] using h)

theorem arrFree_isArr {v : JsVal} (h : v.arrFree = true) :
    v.isArr = false := by
  cases v <;> first | rfl | simp [JsVal.arrFree] at h

/-! ## Concrete fixtures (templates and content trees from the spec's
examples) -/

/-- `\x7b\x7b#each items\x7d\x7d\x7b\x7bthis.title\x7d\x7d\x7b\x7b/each\x7d\x7d`. -/
def tmplEach : Str := "\x7b\x7b#each items\x7d\x7d\x7b\x7bthis.title\x7d\x7d\x7b\x7b/each\x7d\x7d".data

/-- `items = [\x7btitle:"A"\x7d, \x7btitle:"B"\x7d]`. -/
def dataAB : JsVal :=
  .obj (.ofList [("items".data,
    .arr (.ofList [.obj (.ofList [("title".data, .str "A".data)]),
                   .obj (.ofList [("title".data, .str "B".data)])]))])

/-- `items = "not an array"`. -/
def dataNA : JsVal :=
  .obj (.ofList [("items".data, .str "not an array".data)])

/-- The about-section template of the spec's example. -/
def secTmpl : Str :=
  "<section id=\"about\" class=\"about-section\">OLD</section>".data

/-- `\x7babout: \x7bcustomHtml: "<p>NEW</p>"\x7d\x7d`. -/
def dataNEW : JsVal :=
  .obj (.ofList [("about".data,
    .obj (.ofList [("customHtml".data, .str "<p>NEW</p>".data)]))])

/-- An override value containing a stray closing tag. -/
def dataBadHtml : JsVal :=
  .obj (.ofList [("about".data,
    .obj (.ofList [("customHtml".data, .str "A</section>B".data)]))])

/-- The same section element with the class attribute before the id. -/
def secTmplRev : Str :=
  "<section class=\"about-section\" id=\"about\">OLD</section>".data

/-- The section element with extra attributes, extra classes and mixed
case, id before class. -/
def secTmplTol : Str :=
  ("<Section data-x=\"1\" id=\"about\" lang=\"en\" " ++
   "class=\"foo about-section bar\" hidden>OLD</SECTION>").data

/-- A tree with `services.items` a three-element sequence of titled
records. -/
def treeSvc : JsVal :=
  .obj (.ofList [("services".data, .obj (.ofList [("items".data,
    .arr (.ofList
      [.obj (.ofList [("title".data, .str "A".data)]),
       .obj (.ofList [("title".data, .str "B".data)]),
       .obj (.ofList [("title".data, .str "C".data)])]))]))])

/-- `\x7ba: 0\x7d`. -/
def treeZero : JsVal := .obj (.ofList [("a".data, .num 0)])

/-! ## Claim theorems -/

/-- Claim C8: compilation is deterministic — for all content trees and
template strings, two calls of the compile function with identical inputs
produce identical output strings.  `buildHTML` is a pure function of its
two arguments (the JS closes over no mutable state: the `/g` regex and its
`lastIndex` are recreated on every call), so repeated application is
literally the same value. -/
theorem c8_compile_deterministic (S : Str) (T : JsVal) :
    buildHTML S T = buildHTML S T := rfl

/-- Claim C1, counterexample: compiling the spec's own each-block example
against `items = "not an array"` does not render the block as the empty
string; the block (with its interior already scalar-processed, here
unchanged) is left verbatim, because the `if (Array.isArray(array))` has
no else branch and the loop merely advances `lastIndex` past the match. -/
theorem c1_nonarray_not_empty :
    buildHTML tmplEach dataNA = tmplEach ∧ tmplEach ≠ [] := by
  constructor
  · rfl
  · decide

/-- Claim C1 (amended): an each-region whose `arrayPath` resolves to a
non-array value is left verbatim in the compiled output (it does not
render as the empty string): against a tree in which no path resolves to
an array the entire each-loop is the identity, and in particular
`\x7b\x7b#each items\x7d\x7d\x7b\x7bthis.title\x7d\x7d\x7b\x7b/each\x7d\x7d` compiles to `AB` against
`items = [\x7btitle:"A"\x7d,\x7btitle:"B"\x7d]` and to the literal block text against
`items = "not an array"`. -/
theorem c1_nonarray_amended :
    (∀ data : JsVal, (∀ g : Str, (getValue data g).isArr = false) →
      ∀ fuel li html, eachLoop data fuel li html = html) ∧
    buildHTML tmplEach dataAB = "AB".data ∧
    buildHTML tmplEach dataNA = tmplEach := by
  refine ⟨?_, rfl, rfl⟩
  intro data hna fuel
  induction fuel with
  | zero => intro li html; rfl
  | succ n ih =>
    intro li html
    rw [eachLoop]
    cases hs : eachSearch (html.drop li) with
    | none => rfl
    | some r =>
      obtain ⟨i, g, body, len⟩ := r
      have hne := hna (jsTrim g)
      cases hv : getValue data (jsTrim g) with
      | arr xs => rw [hv] at hne; simp [JsVal.isArr] at hne
      | undefined => simp only [hv]; exact ih _ _
      | null => simp only [hv]; exact ih _ _
      | bool b => simp only [hv]; exact ih _ _
      | num n' => simp only [hv]; exact ih _ _
      | str s => simp only [hv]; exact ih _ _
      | obj fs => simp only [hv]; exact ih _ _

/-- Claim C1 (witness): the general conjunct applied to the concrete
non-array tree of the example. -/
theorem c1_nonarray_witness :
    eachLoop dataNA 3 0 tmplEach = tmplEach :=
  c1_nonarray_amended.1 dataNA
    (fun g => arrFree_isArr (getValue_arrFree dataNA g (by decide)))
    3 0 tmplEach

/-- Claim C4, counterexample: the path resolvers do not support bracket
notation.  On a tree whose `services.items` is a three-element sequence
whose element 2 has title `"C"`, `getValue` on
`services.items[2].title` splits into the segments `services`,
`items[2]`, `title`; `items[2]` is not a key of the `services` object, so
the result is `undefined`, not the element's title. -/
theorem c4_bracket_unsupported :
    getValue treeSvc "services.items[2].title".data = .undefined ∧
    getValue treeSvc "services.items.2.title".data = .str "C".data := by
  constructor <;> rfl

/-- Claim C4 (amended): bracket notation is not supported by `getValue`
(a bracketed segment is looked up literally as an object key and misses),
but an integer segment in plain dot notation addresses a sequence
element: on every tree whose `services.items` is a sequence whose element
at index 2 carries a `title` field, `get(tree, "services.items.2.title")`
returns that title, while `get(tree, "services.items[2].title")` is
`undefined` whenever the enclosing object has no literal `items[2]`
key. -/
theorem c4_bracket_amended (fs gs hs : JsObj) (xs : JsArr) (t : JsVal)
    (h1 : fs.find? "services".data = some (.obj gs))
    (h2 : gs.find? "items".data = some (.arr xs))
    (h2' : gs.find? "items[2]".data = none)
    (h3 : xs.get? 2 = some (.obj hs))
    (h4 : hs.find? "title".data = some t) :
    getValue (.obj fs) "services.items.2.title".data = t ∧
    getValue (.obj fs) "services.items[2].title".data = .undefined := by
  constructor
  · have hsplit : jsSplit '.' "services.items.2.title".data =
        ["services".data, "items".data, "2".data, "title".data] := by rfl
    rw [getValue, hsplit]
    simp only [List.foldl_cons, List.foldl_nil, truthy, if_pos]
    rw [show propAccess (.obj fs) "services".data = .obj gs by
          simp [propAccess, h1]]
    simp only [truthy, if_pos]
    rw [show propAccess (.obj gs) "items".data = .arr xs by
          simp [propAccess, h2]]
    simp only [truthy, if_pos]
    rw [show propAccess (.arr xs) "2".data = .obj hs by
          simp [propAccess, canonIndex?, h3]]
    simp only [truthy, if_pos]
    simp [propAccess, h4]
  · have hsplit : jsSplit '.' "services.items[2].title".data =
        ["services".data, "items[2]".data, "title".data] := by rfl
    rw [getValue, hsplit]
    simp only [List.foldl_cons, List.foldl_nil, truthy, if_pos]
    rw [show propAccess (.obj fs) "services".data = .obj gs by
          simp [propAccess, h1]]
    simp only [truthy, if_pos]
    rw [show propAccess (.obj gs) "items[2]".data = .undefined by
          simp [propAccess, h2']]
    rfl

/-- Claim C4 (witness): the amended statement applied to the concrete
three-element tree. -/
theorem c4_bracket_witness :
    getValue treeSvc "services.items.2.title".data = .str "C".data ∧
    getValue treeSvc "services.items[2].title".data = .undefined :=
  c4_bracket_amended _ _ _ _ _ rfl rfl rfl rfl rfl

theorem jsSplit_no_sep {sep : Char} (p : Str) (h : ∀ c ∈ p, c ≠ sep) :
    jsSplit sep p = [p] := by
  induction p with
  | nil => rfl
  | cons c cs ih =>
    have hc : c ≠ sep := h c (by simp)
    have hcs := ih (fun x hx => h x (by simp [hx]))
    simp [jsSplit, hc, hcs]

theorem jsSplit_append {sep : Char} (p q : Str) (h : ∀ c ∈ p, c ≠ sep) :
    jsSplit sep (p ++ sep :: q) = p :: jsSplit sep q := by
  induction p with
  | nil => simp [jsSplit]
  | cons c cs ih =>
    have hc : c ≠ sep := h c (by simp)
    have hcs := ih (fun x hx => h x (by simp [hx]))
    cases hq : jsSplit sep q with
    | nil => rw [hq] at hcs; simp [jsSplit, hc, hcs]
    | cons a as => rw [hq] at hcs; simp [jsSplit, hc, hcs]

/-- Claim C10: `getValue` propagates the first falsy intermediate value:
on every tree whose node at a single segment `p` is a falsy non-undefined
scalar `v`, the two-segment path `p.q` resolves to `v` itself (not
`undefined`), and compiling the single placeholder for that path replaces
it with the JS string form of `v` instead of leaving it verbatim. -/
theorem c10_falsy_propagation (tree : JsVal) (p q : Str) (v : JsVal)
    (hp : ∀ c ∈ p, c ≠ '.')
    (hkey : plainKey (p ++ '.' :: q) = true)
    (htrim : jsTrim (p ++ '.' :: q) = p ++ '.' :: q)
    (ht : truthy tree = true)
    (hv : propAccess tree p = v)
    (hfalsy : truthy v = false) (hnund : v ≠ .undefined) :
    getValue tree (p ++ '.' :: q) = v ∧
    buildHTML ('{' :: '{' :: ((p ++ '.' :: q) ++ '}' :: '}' :: [])) tree =
      jsToString v := by
  have hget : getValue tree (p ++ '.' :: q) = v := by
    rw [getValue, jsSplit_append p q hp]
    rcases hsq : jsSplit '.' q with _ | ⟨a, as⟩
    · simp [List.foldl_cons, ht, hv]
    · have : ∀ l : List Str, l.foldl
          (fun cur pr => if truthy cur then propAccess cur pr else cur) v = v := by
        intro l
        induction l with
        | nil => rfl
        | cons b bs ih => simp [List.foldl_cons, hfalsy, ih]
      simp [List.foldl_cons, ht, hv, hfalsy, this]
  refine ⟨hget, ?_⟩
  obtain ⟨c, K, hck⟩ : ∃ c K, p ++ '.' :: q = c :: K := by
    cases p with
    | nil => exact ⟨'.', q, rfl⟩
    | cons a as => exact ⟨a, as ++ '.' :: q, rfl⟩
  have hkey' := hkey
  rw [hck] at hkey'
  have hc1 : c ≠ '#' := by
    intro h; subst h; simp [plainKey] at hkey'
  have hc2 : c ≠ '/' := by
    intro h; subst h; simp [plainKey] at hkey'
  have hcK : plainKeyChar c = true := by
    by_contra h
    simp only [Bool.not_eq_true] at h
    simp [plainKey, h] at hkey'
  have hKall : K.all plainKeyChar = true := by
    by_contra h
    simp only [Bool.not_eq_true] at h
    simp [plainKey, h] at hkey'
  have hKmem : ∀ x ∈ K, plainKeyChar x = true := by
    intro x hx
    exact (List.all_eq_true.mp hKall) x hx
  have hs1 : scalarPass tree ('{' :: '{' :: ((p ++ '.' :: q) ++ '}' :: '}' :: [])) =
      jsToString v := by
    rw [hck]
    simp only [List.cons_append]
    rw [scalarPass_single tree c K hc1 hc2 hKmem]
    rw [show jsTrim (c :: K) = c :: K from hck ▸ htrim]
    rw [show getValue tree (c :: K) = v from hck ▸ hget]
    cases v
    all_goals first | exact absurd rfl hnund | rfl
  rw [buildHTML]
  simp only [hs1]
  have hout : ∀ x ∈ jsToString v, x ≠ '{' ∧ charEqI '<' x = false := by
    intro x hx
    cases v with
    | undefined => exact absurd rfl hnund
    | null =>
      simp only [jsToString] at hx
      fin_cases hx <;> exact ⟨by decide, by decide⟩
    | bool b =>
      rcases b with _ | _
      · simp only [jsToString] at hx
        fin_cases hx <;> exact ⟨by decide, by decide⟩
      · simp [truthy] at hfalsy
    | num n =>
      have hn : n = 0 := by simpa [truthy] using hfalsy
      subst hn
      simp only [jsToString] at hx
      fin_cases hx <;> exact ⟨by decide, by decide⟩
    | str s =>
      have hs : s = [] := by simpa [truthy] using hfalsy
      subst hs
      simp [jsToString] at hx
    | arr xs => simp [truthy] at hfalsy
    | obj fs => simp [truthy] at hfalsy
  have heach : eachLoop tree ((jsToString v).length + 1) 0 (jsToString v) =
      jsToString v := by
    have h1 : eachSearch (jsToString v) = none :=
      eachSearch_none _ (fun x hx => (hout x hx).1)
    cases hl : (jsToString v).length with
    | zero => exact eachLoop_no_match tree 0 _ h1
    | succ m => exact eachLoop_no_match tree (m + 1) _ h1
  rw [heach]
  exact sectionPass_id tree _ (fun x hx => (hout x hx).2)

/-- Claim C10 (witness): the tree `\x7ba: 0\x7d` with path `a.b`: `getValue`
returns `0` (not `undefined`) and the compiled placeholder becomes `0`. -/
theorem c10_falsy_witness :
    getValue treeZero ("a".data ++ '.' :: "b".data) = .num 0 ∧
    buildHTML ('{' :: '{' :: (("a".data ++ '.' :: "b".data) ++ '}' :: '}' :: []))
      treeZero = jsToString (.num 0) :=
  c10_falsy_propagation treeZero "a".data "b".data (.num 0)
    (by decide) (by decide) rfl rfl rfl rfl (fun h => JsVal.noConfusion h)

/-- The template of the C5 counterexample: an undefined placeholder inside
an each-block over an empty array. -/
def tmplEachP : Str := "\x7b\x7b#each a\x7d\x7d\x7b\x7bp\x7d\x7d\x7b\x7b/each\x7d\x7d".data

/-- `\x7ba: []\x7d` — `p` is not present. -/
def dataEmptyArr : JsVal := .obj (.ofList [("a".data, .arr .nil)])

/-- Claim C5, counterexample: the template contains the placeholder for
the absent path `p`, yet the compiled output is the empty string — the
scalar pass leaves the placeholder verbatim, but the subsequent each-pass
replaces the whole block (array `a` is `[]`) by the empty concatenation,
removing the placeholder text from the output. -/
theorem c5_placeholder_removed :
    containsSeq tmplEachP "\x7b\x7bp\x7d\x7d".data = true ∧
    getValue dataEmptyArr "p".data = .undefined ∧
    buildHTML tmplEachP dataEmptyArr = [] := by
  refine ⟨by decide, rfl, rfl⟩

/-- Claim C5 (amended): for a template that is exactly one placeholder
with a plain key (no braces, no `<`, no line terminators, not starting
with `#` or `/`) resolving to `undefined`, compilation leaves the literal
placeholder text untouched (and, the compile function being total, never
throws); a placeholder inside an expanded each-block or an overridden
section can however be removed with its surrounding region by the later
passes. -/
theorem c5_unresolved_left_verbatim (data : JsVal) (K : Str)
    (hkey : plainKey K = true)
    (hund : getValue data (jsTrim K) = .undefined) :
    buildHTML ('{' :: '{' :: (K ++ '}' :: '}' :: [])) data =
      '{' :: '{' :: (K ++ '}' :: '}' :: []) := by
  obtain ⟨c, K', rfl⟩ : ∃ c K', K = c :: K' := by
    cases K with
    | nil => exact absurd hkey (by decide)
    | cons c K' => exact ⟨c, K', rfl⟩
  have hc1 : c ≠ '#' := by
    intro h; subst h; simp [plainKey] at hkey
  have hc2 : c ≠ '/' := by
    intro h; subst h; simp [plainKey] at hkey
  have hcK : plainKeyChar c = true := by
    by_contra h
    simp only [Bool.not_eq_true] at h
    simp [plainKey, h] at hkey
  have hKall : K'.all plainKeyChar = true := by
    by_contra h
    simp only [Bool.not_eq_true] at h
    simp [plainKey, h] at hkey
  have hKmem : ∀ x ∈ K', plainKeyChar x = true := fun x hx =>
    (List.all_eq_true.mp hKall) x hx
  simp only [List.cons_append]
  have hs1 : scalarPass data ('{' :: '{' :: c :: (K' ++ '}' :: '}' :: [])) =
      '{' :: '{' :: c :: (K' ++ '}' :: '}' :: []) := by
    rw [scalarPass_single data c K' hc1 hc2 hKmem, hund]
  rw [buildHTML]
  simp only [hs1]
  have heach := eachSearch_single c K' hc1 hcK hKmem
  have hloop : eachLoop data
      (('{' :: '{' :: c :: (K' ++ '}' :: '}' :: [])).length + 1) 0
      ('{' :: '{' :: c :: (K' ++ '}' :: '}' :: [])) =
      '{' :: '{' :: c :: (K' ++ '}' :: '}' :: []) := by
    exact eachLoop_no_match data _ _ heach
  rw [hloop]
  refine sectionPass_id data _ (fun x hx => ?_)
  rcases List.mem_cons.mp hx with h | h
  · subst h; decide
  · rcases List.mem_cons.mp h with h | h
    · subst h; decide
    · rcases List.mem_cons.mp h with h | h
      · subst h; exact plainKeyChar_not_lt hcK
      · rcases List.mem_append.mp h with h | h
        · exact plainKeyChar_not_lt (hKmem x h)
        · rcases List.mem_cons.mp h with h | h
          · subst h; decide
          · rcases List.mem_cons.mp h with h | h
            · subst h; decide
            · simp at h

/-- Claim C5 (witness): the amended statement applied to the plain key
`site.missing` on the empty tree. -/
theorem c5_unresolved_witness :
    buildHTML ('{' :: '{' :: ("site.missing".data ++ '}' :: '}' :: []))
      (.obj .nil) = '{' :: '{' :: ("site.missing".data ++ '}' :: '}' :: []) :=
  c5_unresolved_left_verbatim (.obj .nil) "site.missing".data (by decide) rfl

/-- Claim C6, counterexample: section-override substitution is not
idempotent for every (template, tree) pair.  With
`about.customHtml = "A</section>B"`, the first pass yields
`<section id="about" class="about-section">A</section>B</section>`; on the
second pass the lazy inner group stops at the injected `</section>`, so
the override is spliced in again and the document grows — the two results
differ. -/
theorem c6_idempotence_fails_in_general :
    sectionPass dataBadHtml (sectionPass dataBadHtml secTmpl) ≠
      sectionPass dataBadHtml secTmpl := by
  decide

/-- Claim C6 (amended): on the spec's example the override is applied and
the pass is idempotent — the template
`<section id="about" class="about-section">OLD</section>` with
`\x7babout:\x7bcustomHtml:"<p>NEW</p>"\x7d\x7d` compiles to
`<section id="about" class="about-section"><p>NEW</p></section>`, and
applying the section pass to that output again reproduces it identically;
but idempotence does not hold for every pair (it fails when the override
value itself contains `</section>`). -/
theorem c6_section_override_example :
    buildHTML secTmpl dataNEW =
      "<section id=\"about\" class=\"about-section\"><p>NEW</p></section>".data ∧
    sectionPass dataNEW (sectionPass dataNEW secTmpl) =
      sectionPass dataNEW secTmpl := by
  constructor
  · rfl
  · rfl

/-- Claim C7, counterexample: matching does not tolerate attribute order.
The built pattern demands `id="about"` before `class="...about-section..."`
inside the opening tag; on the same element written with the class first,
the regex does not match and the override is silently skipped — the
compiled output keeps `OLD` although `about.customHtml` is set. -/
theorem c7_attribute_order_sensitive :
    sectionPass dataNEW secTmplRev = secTmplRev := by
  rfl

/-- Claim C7 (amended): when the id attribute precedes the class
attribute, matching does tolerate additional attributes, additional
classes and letter case — the element
`<Section data-x="1" id="about" lang="en" class="foo about-section bar" hidden>`
is matched and its inner content replaced; but with the class attribute
written before the id, the same element is not matched at all. -/
theorem c7_tolerance_with_id_first :
    sectionPass dataNEW secTmplTol =
      ("<Section data-x=\"1\" id=\"about\" lang=\"en\" " ++
       "class=\"foo about-section bar\" hidden><p>NEW</p></SECTION>").data := by
  rfl

/-- Claim C3, counterexample: `setValue` does not fail with a `PathError`
when an intermediate segment holds a scalar.  On `\x7ba: 0\x7d`, the falsy
scalar `0` at `a` fails the `if (!current[key])` test and is silently
overwritten with a fresh mapping: `set(\x7ba:0\x7d, "a.b", "X")` succeeds and
deepens the leaf into `\x7ba: \x7bb: "X"\x7d\x7d` (no error of any kind is raised,
and no `PathError` exists in the code). -/
theorem c3_silent_deepening :
    setValue treeZero "a.b".data (.str "X".data) =
      .ok (.obj (.cons "a".data
        (.obj (.cons "b".data (.str "X".data) .nil)) .nil)) := by
  rfl

/-- Claim C3 (amended): `set` creates missing intermediate mapping nodes,
and it also silently replaces a falsy scalar intermediate (`0`, `""`,
`false`, `null`) with a fresh mapping — the write succeeds and the leaf is
deepened.  Only a truthy scalar intermediate makes the write fail, and
then with a strict-mode `TypeError` (`server.js` is an ES module), not a
`PathError`; no `PathError` exists in the code. -/
theorem c3_setvalue_amended :
    (∀ val : JsVal, setValue (.obj .nil) "a.b".data val =
      .ok (.obj (.cons "a".data (.obj (.cons "b".data val .nil)) .nil))) ∧
    (∀ (v val : JsVal), truthy v = false →
      setValue (.obj (.cons "a".data v .nil)) "a.b".data val =
        .ok (.obj (.cons "a".data (.obj (.cons "b".data val .nil)) .nil))) ∧
    (∀ (s : Str) (val : JsVal), s ≠ [] →
      setValue (.obj (.cons "a".data (.str s) .nil)) "a.b".data val =
        .error "TypeError: cannot create property on primitive".data) := by
  refine ⟨fun val => rfl, fun v val hv => ?_, fun s val hs => ?_⟩
  · have hsplit : (jsSplit '.' "a.b".data).reverse =
        ["b".data, "a".data] := by rfl
    rw [setValue, hsplit]
    simp only [List.reverse_cons, List.reverse_nil, List.nil_append,
      List.cons_append]
    rw [setWalk]
    simp [jsRead, propAccess, JsObj.find?, hv, jsAssign, JsObj.set,
      setWalk, writeBack, Except.bind, Except.map]
  · have hsplit : (jsSplit '.' "a.b".data).reverse =
        ["b".data, "a".data] := by rfl
    rw [setValue, hsplit]
    simp only [List.reverse_cons, List.reverse_nil, List.nil_append,
      List.cons_append]
    rw [setWalk]
    simp [jsRead, propAccess, JsObj.find?, truthy, hs, setWalk, jsAssign,
      Except.bind, Except.map]

/-- Claim C3 (witness): the amended statement at `v = 0`, `s = "x"`,
`val = "X"`. -/
theorem c3_setvalue_witness :
    setValue (.obj (.cons "a".data (.num 0) .nil)) "a.b".data (.str "X".data) =
      .ok (.obj (.cons "a".data
        (.obj (.cons "b".data (.str "X".data) .nil)) .nil)) ∧
    setValue (.obj (.cons "a".data (.str "x".data) .nil)) "a.b".data
        (.str "X".data) =
      .error "TypeError: cannot create property on primitive".data :=
  ⟨c3_setvalue_amended.2.1 (.num 0) (.str "X".data) rfl,
   c3_setvalue_amended.2.2 "x".data (.str "X".data) (by decide)⟩

/-! ## Publish-pipeline fixtures -/

/-- A run whose build step throws, everything else healthy. -/
def envBuildFail : PubEnv :=
  { previewRead := .ok "D".data
    prodWriteOk := true
    dataUploadOk := true
    buildRun := .error "build failed".data
    indexRead := .ok "H".data
    htmlUploadOk := true }

/-- A run whose `data.json` upload fails, everything else healthy. -/
def envDataUploadFail : PubEnv :=
  { previewRead := .ok "D".data
    prodWriteOk := true
    dataUploadOk := false
    buildRun := .ok ()
    indexRead := .ok "H".data
    htmlUploadOk := true }

/-- The empty initial state. -/
def st0 : PubState := ⟨none, none, none⟩

/-- Claim C2, counterexample: in a publish run whose build step throws,
the data-snapshot upload has nevertheless occurred — the `data.json`
upload (step 2) precedes the build (step 3), so "neither the data
snapshot nor the HTML artifact is uploaded" is false. -/
theorem c2_data_uploaded_despite_build_failure :
    (publish envBuildFail st0).dataUploadCalled = true ∧
    (publish envBuildFail st0).state.blobData = some "D".data := by
  constructor <;> rfl

/-- Claim C2 (amended): in every publish run in which the preview snapshot
was promoted and the build step then throws, the HTML artifact is not
uploaded, the pipeline reports failure, and the production snapshot still
equals the promoted preview value (promotion is not rolled back) — but the
data-snapshot upload call happens before the build and is therefore
reached regardless of the build outcome. -/
theorem c2_build_failure_aborts_html_upload (env : PubEnv) (st : PubState)
    (ds : Str) (err : Str)
    (hprev : env.previewRead = .ok ds)
    (hw : env.prodWriteOk = true)
    (hb : env.buildRun = .error err) :
    (publish env st).htmlUploadCalled = false ∧
    (publish env st).state.production = some ds ∧
    (publish env st).state.blobHtml = st.blobHtml ∧
    (publish env st).ok = false ∧
    (publish env st).dataUploadCalled = true := by
  cases hdu : env.dataUploadOk <;>
    simp [publish, hprev, hw, hb, hdu]

/-- Claim C2 (witness): the amended statement on the concrete failing-build
run. -/
theorem c2_build_failure_witness :
    (publish envBuildFail st0).htmlUploadCalled = false ∧
    (publish envBuildFail st0).state.production = some "D".data ∧
    (publish envBuildFail st0).state.blobHtml = st0.blobHtml ∧
    (publish envBuildFail st0).ok = false ∧
    (publish envBuildFail st0).dataUploadCalled = true :=
  c2_build_failure_aborts_html_upload envBuildFail st0 "D".data
    "build failed".data rfl rfl rfl

/-- Claim C9, counterexample: the pipeline can report success although an
upload sub-step has failed — a failed `data.json` upload is swallowed
(`// Continue anyway`), and if the rest of the run succeeds the route
responds `success: true` while the `data.json` blob was never written. -/
theorem c9_success_despite_failed_upload :
    (publish envDataUploadFail st0).ok = true ∧
    (publish envDataUploadFail st0).state.blobData = none := by
  constructor <;> rfl

/-- Claim C9 (amended): in every publish run in which the HTML-artifact
upload fails after the document was promoted and compiled, the pipeline
reports failure and does not roll back the promoted production snapshot;
but a failure of the earlier data-snapshot upload is swallowed, and the
pipeline can then still report success. -/
theorem c9_html_upload_failure_reported (env : PubEnv) (st : PubState)
    (ds htmlC : Str)
    (hprev : env.previewRead = .ok ds)
    (hw : env.prodWriteOk = true)
    (hb : env.buildRun = .ok ())
    (hi : env.indexRead = .ok htmlC)
    (hu : env.htmlUploadOk = false) :
    (publish env st).ok = false ∧
    (publish env st).htmlUploadCalled = true ∧
    (publish env st).state.production = some ds ∧
    (publish env st).state.blobHtml = st.blobHtml := by
  cases hdu : env.dataUploadOk <;>
    simp [publish, hprev, hw, hb, hi, hu, hdu]

/-- A run whose `index.html` upload fails, everything else healthy. -/
def envHtmlUploadFail : PubEnv :=
  { previewRead := .ok "D".data
    prodWriteOk := true
    dataUploadOk := true
    buildRun := .ok ()
    indexRead := .ok "H".data
    htmlUploadOk := false }

/-- Claim C9 (witness): the amended statement on a concrete run whose
HTML upload fails. -/
theorem c9_html_upload_failure_witness :
    (publish envHtmlUploadFail st0).ok = false ∧
    (publish envHtmlUploadFail st0).htmlUploadCalled = true ∧
    (publish envHtmlUploadFail st0).state.production = some "D".data ∧
    (publish envHtmlUploadFail st0).state.blobHtml = st0.blobHtml :=
  c9_html_upload_failure_reported _ st0 "D".data "H".data rfl rfl rfl rfl rfl

end WCF
